import Mathlib

/-!
Verification of the profile-swap tool (profile-rs, `src/main.rs`).

The program manages named profiles of configuration files.  Each managed
file `P` has up to three on-disk forms: the live file `P`, the pristine
snapshot `P.org`, and one variant snapshot `P.<profile>` per profile.
We model the filesystem as a partial map from canonical path strings to
file contents, and transcribe the Rust functions `make_canon_names`,
`copy_file`, `add_profile`, `remove_profile`, `activate`, `deactivate`
and the dispatch in `main` as pure state-passing functions.

Modelling conventions:
* Paths are already-canonical strings; `canonicalize` succeeds exactly
  when the path exists in the filesystem map (Rust's
  `Path::canonicalize` fails when the file does not exist).
* `PathBuf::add_extension` appends `"." ++ ext` to the path, and is the
  identity for the empty extension (as in Rust).
* `std::fs::copy(src, dst)` first opens `src` (failing if absent), then
  truncates `dst` and copies; when `src = dst` the file ends up empty,
  which the model reproduces.
* The `HashMap<String, Profile>` registry is modelled as an association
  list; `HashMap`/`HashSet` iteration order is unspecified in Rust, the
  model fixes the list order as one admissible determinization.
* Errors are the `Option String` on the left of each result; mutations
  performed before the error (through `&mut` or on the real filesystem)
  persist in the returned state, as they do in the program.
-/

set_option autoImplicit false

namespace ProfileRs

/-- Canonical filesystem paths, modelled as strings. -/
abbrev Path := String

/-- File contents, modelled as strings of bytes. -/
abbrev Content := String

/-- The filesystem: a partial map from canonical paths to contents. -/
abbrev FS := Path → Option Content

/-- Point update of the filesystem. -/
def update (fs : FS) (p : Path) (c : Option Content) : FS :=
  fun q => if q = p then c else fs q

/-- Rust `Path::canonicalize`: succeeds (returning the canonical path)
exactly when the file exists. -/
def canonicalize (fs : FS) (p : Path) : Except String Path :=
  if (fs p).isSome then .ok p
  else .error ("Failed to canonicalize " ++ p)

/-- Rust `PathBuf::add_extension`: appends `"." ++ ext`, identity for the
empty extension. -/
def addExtension (p : Path) (ext : String) : Path :=
  if ext = "" then p else p ++ "." ++ ext

/-- `make_canon_names`: canonicalize `basename`, then derive the variant
path (`basename.<profile_name>`) and the org path (`basename.org`). -/
def make_canon_names (fs : FS) (basename : Path) (profile_name : String) :
    Except String (Path × Path × Path) :=
  match canonicalize fs basename with
  | .error e => .error e
  | .ok b => .ok (b, addExtension b profile_name, addExtension b "org")

/-- `copy_file` / `std::fs::copy`: fails when `src` is absent, otherwise
overwrites `dst` with the contents of `src`.  Copying a file onto itself
truncates it (`File::create` truncates `dst` before the bytes are read). -/
def copy_file (fs : FS) (src dst : Path) : Except String FS :=
  match fs src with
  | none => .error ("Error copying " ++ src ++ " to " ++ dst)
  | some c => .ok (update fs dst (some (if src = dst then "" else c)))

/-- `std::fs::remove_file`: fails when the file is absent. -/
def remove_file (fs : FS) (p : Path) : Except String FS :=
  if (fs p).isSome then .ok (update fs p none)
  else .error ("Failed to remove file " ++ p)

/-- A profile: the ordered list of managed file paths (struct `Profile`). -/
structure Profile where
  files : List Path
deriving DecidableEq

/-- The registry `HashMap<String, Profile>`, as an association list. -/
abbrev Registry := List (String × Profile)

/-- Program state: the in-memory registry plus the filesystem. -/
structure St where
  registry : Registry
  fs : FS

/-- `profiles.entry(name).or_insert(default).files.push(b)`: append `b` to
the named profile's list, creating the entry if absent. -/
def registryPush (name : String) (b : Path) : Registry → Registry
  | [] => [(name, ⟨[b]⟩)]
  | (k, pr) :: rest =>
    if k = name then (k, ⟨pr.files ++ [b]⟩) :: rest
    else (k, pr) :: registryPush name b rest

/-- Overwrite the file list of the named profile (mutation through
`get_mut`). -/
def registrySet (name : String) (files : List Path) (r : Registry) : Registry :=
  r.map fun kp => if kp.1 = name then (kp.1, ⟨files⟩) else kp

/-- `HashMap::remove`: drop the named key. -/
def registryRemove (name : String) (r : Registry) : Registry :=
  r.filter fun kp => kp.1 != name

/-- `Iterator::position`: index of the first element equal to `b`. -/
def position (b : Path) : List Path → Option Nat
  | [] => none
  | g :: rest => if g = b then some 0 else (position b rest).map (· + 1)

/-- The error message for the reserved profile name `"org"`. -/
def reservedNameError : String :=
  "The profile name \"org\" is reserved, please use another"

/-- `add_profile`: reject the reserved name, derive the three paths, copy
the live file to the org path and then to the variant path, and append the
canonical base to the profile's list. -/
def add_profile (name : String) (basename : Path) (s : St) :
    Option String × St :=
  if name = "org" then (some reservedNameError, s)
  else
    match make_canon_names s.fs basename name with
    | .error e => (some e, s)
    | .ok (b, newName, orgName) =>
      match copy_file s.fs b orgName with
      | .error e => (some e, s)
      | .ok fs1 =>
        match copy_file fs1 b newName with
        | .error e => (some e, { s with fs := fs1 })
        | .ok fs2 =>
          (none, { registry := registryPush name b s.registry, fs := fs2 })

/-- `remove_profile`: derive the three paths, find the profile and the
path's first position in its list, remove that list entry, then delete the
variant file and the org file from disk; if the list is now empty, drop
the profile from the registry.  The list mutation is not rolled back when
a deletion fails. -/
def remove_profile (name : String) (basename : Path) (s : St) :
    Option String × St :=
  match make_canon_names s.fs basename name with
  | .error e => (some e, s)
  | .ok (b, newName, orgName) =>
    match List.lookup name s.registry with
    | none => (some ("Profile " ++ name ++ " does not exist"), s)
    | some prof =>
      match position b prof.files with
      | none => (some ("File " ++ b ++ " not found in Profile " ++ name), s)
      | some found =>
        let files1 := prof.files.eraseIdx found
        let reg1 := registrySet name files1 s.registry
        match remove_file s.fs newName with
        | .error e => (some e, { registry := reg1, fs := s.fs })
        | .ok fsA =>
          match remove_file fsA orgName with
          | .error e => (some e, { registry := reg1, fs := fsA })
          | .ok fsB =>
            let reg2 := if files1.isEmpty then registryRemove name reg1 else reg1
            (none, { registry := reg2, fs := fsB })

/-- The loop body of `activate`: for each file, derive the paths and copy
the variant snapshot onto the live file, stopping at the first error
(copies already performed persist). -/
def activateFiles (name : String) (fs : FS) : List Path → Option String × FS
  | [] => (none, fs)
  | f :: rest =>
    match make_canon_names fs f name with
    | .error e => (some e, fs)
    | .ok (b, newName, _) =>
      match copy_file fs newName b with
      | .error e => (some e, fs)
      | .ok fs1 => activateFiles name fs1 rest

/-- `activate`: look up the profile and copy each of its variant snapshots
onto the corresponding live file, in list order. -/
def activate (name : String) (s : St) : Option String × St :=
  match List.lookup name s.registry with
  | none => (some ("Profile " ++ name ++ " does not exist"), s)
  | some prof =>
    let r := activateFiles name s.fs prof.files
    (r.1, { s with fs := r.2 })

/-- The deduplicated union of every path listed in any profile (the
`HashSet` collected in `deactivate`). -/
def unionFiles (r : Registry) : List Path :=
  ((r.map fun kp => kp.2.files).flatten).dedup

/-- The loop body of `deactivate`: for each file, derive the paths with the
synthetic variant name `"org"` and copy the org snapshot onto the live
file, stopping at the first error. -/
def deactivateFiles (fs : FS) : List Path → Option String × FS
  | [] => (none, fs)
  | f :: rest =>
    match make_canon_names fs f "org" with
    | .error e => (some e, fs)
    | .ok (b, _, orgName) =>
      match copy_file fs orgName b with
      | .error e => (some e, fs)
      | .ok fs1 => deactivateFiles fs1 rest

/-- `deactivate`: restore the org snapshot of every managed path across
all profiles. -/
def deactivate (s : St) : Option String × St :=
  let r := deactivateFiles s.fs (unionFiles s.registry)
  (r.1, { s with fs := r.2 })

/-- The four subcommands of the CLI. -/
inductive Commands where
  | add (profile : String) (file : Path)
  | remove (profile : String) (file : Path)
  | activate (profile : String)
  | deActivate

/-- `Result::and_then` over the state-passing operations. -/
def andThen (first second : St → Option String × St) (s : St) :
    Option String × St :=
  match first s with
  | (some e, s1) => (some e, s1)
  | (none, s1) => second s1

/-- The command dispatch in `main`: each arm runs `deactivate` first and
chains the requested operation with `and_then`. -/
def runCommand : Commands → St → Option String × St
  | .add p f => andThen deactivate (add_profile p f)
  | .remove p f => andThen deactivate (remove_profile p f)
  | .activate p => andThen deactivate (activate p)
  | .deActivate => deactivate

/-- The operation requested by a command, without the leading
`deactivate` (`DeActivate` requests nothing further). -/
def structuralOp : Commands → St → Option String × St
  | .add p f => add_profile p f
  | .remove p f => remove_profile p f
  | .activate p => activate p
  | .deActivate => fun s => (none, s)

/-- Error logged when `toml::to_string_pretty` fails in `main`. -/
def serializeError : String := "Failed to serialize configuration"

/-- Error logged when writing the profiles file fails at the end of
`main`. -/
def writeError : String := "Failed writing profiles file"

/-- Observable outcome of one `main` invocation: the process exit code,
the registry persisted to the store (`none` when nothing valid was
written), the final filesystem, and the error messages logged. -/
structure MainResult where
  exitCode : Nat
  store : Option Registry
  fs : FS
  loggedErrors : List String

/-- `main` after argument parsing: take the result of `get_profiles`, run
the command (always `deactivate` first), and on success serialize and
write the registry.  A command error is logged and exits with code 1
before anything is persisted; a serialization error also exits with
code 1; a store-write error is logged but `main` then simply returns,
so the process exits with code 0. -/
def mainRun (loadResult : Except String Registry) (fs0 : FS) (cmd : Commands)
    (serializeOk writeOk : Bool) : MainResult :=
  match loadResult with
  | .error e => { exitCode := 1, store := none, fs := fs0, loggedErrors := [e] }
  | .ok reg =>
    match runCommand cmd { registry := reg, fs := fs0 } with
    | (some e, s1) =>
      { exitCode := 1, store := none, fs := s1.fs, loggedErrors := [e] }
    | (none, s1) =>
      if serializeOk then
        if writeOk then
          { exitCode := 0, store := some s1.registry, fs := s1.fs,
            loggedErrors := [] }
        else
          { exitCode := 0, store := none, fs := s1.fs,
            loggedErrors := [writeError] }
      else
        { exitCode := 1, store := none, fs := s1.fs,
          loggedErrors := [serializeError] }

/-- Registry states reachable from the empty registry by `add` and
`remove` operations (whatever their outcome; mutations performed before
an error persist, as through `&mut` in the program). -/
inductive Reachable : St → Prop where
  | init (fs : FS) : Reachable { registry := [], fs := fs }
  | addStep (n : String) (f : Path) {s : St} :
      Reachable s → Reachable (add_profile n f s).2
  | removeStep (n : String) (f : Path) {s : St} :
      Reachable s → Reachable (remove_profile n f s).2

/-! ### Basic lemmas about the filesystem primitives -/

@[simp]
theorem update_same (fs : FS) (p : Path) (c : Option Content) :
    update fs p c p = c := by
  simp [update]

theorem update_other (fs : FS) (p : Path) (c : Option Content) (q : Path)
    (h : q ≠ p) : update fs p c q = fs q := by
  simp [update, h]

theorem remove_file_ok {fs fs' : FS} {p : Path}
    (h : remove_file fs p = .ok fs') :
    (fs p).isSome ∧ fs' = update fs p none := by
  unfold remove_file at h
  split at h
  · exact ⟨by assumption, by injection h with h; exact h.symm⟩
  · exact absurd h (by simp)

theorem copy_file_ok {fs fs' : FS} {src dst : Path}
    (h : copy_file fs src dst = .ok fs') :
    ∃ c, fs src = some c ∧
      fs' = update fs dst (some (if src = dst then "" else c)) := by
  unfold copy_file at h
  split at h
  · exact absurd h (by simp)
  · next c hc => exact ⟨c, hc, by injection h with h; exact h.symm⟩

/-! ### Lemmas about `position` and `List.eraseIdx` -/

theorem position_append (l1 l2 : List Path) (f : Path) (h : f ∉ l1) :
    position f (l1 ++ f :: l2) = some l1.length := by
  induction l1 with
  | nil => simp [position]
  | cons g rest ih =>
    have hg : g ≠ f := fun hgf => h (hgf ▸ List.mem_cons_self g rest)
    have hrest : f ∉ rest := fun hf => h (List.mem_cons_of_mem g hf)
    simp [position, hg, ih hrest]

theorem eraseIdx_append (l1 l2 : List Path) (f : Path) :
    List.eraseIdx (l1 ++ f :: l2) l1.length = l1 ++ l2 := by
  induction l1 with
  | nil => simp
  | cons g rest ih => simp [List.eraseIdx, ih]

/-! ### Lemmas about the registry operations -/

theorem lookup_cons_eq (k : String) (v : Profile) (r : Registry) :
    List.lookup k ((k, v) :: r) = some v := by
  simp [List.lookup]

theorem lookup_cons_ne {q k : String} (v : Profile) (r : Registry)
    (h : q ≠ k) : List.lookup q ((k, v) :: r) = List.lookup q r := by
  have h' : (q == k) = false := beq_eq_false_iff_ne.mpr h
  simp [List.lookup, h']

theorem lookup_registryPush_self (name : String) (b : Path) (r : Registry) :
    List.lookup name (registryPush name b r) =
      some ⟨((List.lookup name r).getD ⟨[]⟩).files ++ [b]⟩ := by
  induction r with
  | nil => simp [registryPush, lookup_cons_eq, List.lookup]
  | cons kp rest ih =>
    obtain ⟨k, pr⟩ := kp
    by_cases h : k = name
    · subst h
      simp [registryPush, lookup_cons_eq]
    · simp only [registryPush, if_neg h]
      rw [lookup_cons_ne _ _ (Ne.symm h), lookup_cons_ne _ _ (Ne.symm h), ih]

theorem mem_registryPush {name : String} {b : Path} {r : Registry}
    {k : String} {pr : Profile} (h : (k, pr) ∈ registryPush name b r) :
    k = name ∨ ∃ pr', (k, pr') ∈ r := by
  induction r with
  | nil =>
    simp [registryPush] at h
    exact Or.inl h.1
  | cons kp rest ih =>
    obtain ⟨k', pr'⟩ := kp
    by_cases hk : k' = name
    · subst hk
      simp [registryPush] at h
      rcases h with ⟨h1, _⟩ | h2
      · exact Or.inl h1
      · exact Or.inr ⟨pr, List.mem_cons_of_mem _ h2⟩
    · simp [registryPush, hk] at h
      rcases h with ⟨h1, h2⟩ | h2
      · exact Or.inr ⟨pr', by simp [h1, h2]⟩
      · rcases ih h2 with h3 | ⟨pr'', h3⟩
        · exact Or.inl h3
        · exact Or.inr ⟨pr'', List.mem_cons_of_mem _ h3⟩

theorem registrySet_cons (name : String) (files : List Path) (k : String)
    (pr : Profile) (r : Registry) :
    registrySet name files ((k, pr) :: r) =
      (if k = name then (k, ⟨files⟩) else (k, pr)) :: registrySet name files r := rfl

theorem registryRemove_cons (name : String) (k : String) (pr : Profile)
    (r : Registry) :
    registryRemove name ((k, pr) :: r) =
      if k = name then registryRemove name r
      else (k, pr) :: registryRemove name r := by
  by_cases hk : k = name
  · subst hk
    simp [registryRemove, List.filter]
  · have h' : (k != name) = true := by simp [hk]
    simp [registryRemove, List.filter, h', hk]

theorem lookup_registrySet_self {name : String} {files : List Path}
    {r : Registry} {prof : Profile} (h : List.lookup name r = some prof) :
    List.lookup name (registrySet name files r) = some ⟨files⟩ := by
  induction r with
  | nil => simp [List.lookup] at h
  | cons kp rest ih =>
    obtain ⟨k, pr⟩ := kp
    rw [registrySet_cons]
    by_cases hk : k = name
    · subst hk
      rw [if_pos rfl, lookup_cons_eq]
    · rw [if_neg hk, lookup_cons_ne _ _ (Ne.symm hk)]
      rw [lookup_cons_ne _ _ (Ne.symm hk)] at h
      exact ih h

theorem lookup_registrySet_other {name : String} {files : List Path}
    {r : Registry} {q : String} (h : q ≠ name) :
    List.lookup q (registrySet name files r) = List.lookup q r := by
  induction r with
  | nil => simp [registrySet]
  | cons kp rest ih =>
    obtain ⟨k, pr⟩ := kp
    rw [registrySet_cons]
    by_cases hk : k = name
    · subst hk
      rw [if_pos rfl, lookup_cons_ne _ _ h, lookup_cons_ne _ _ h, ih]
    · rw [if_neg hk]
      by_cases hq : q = k
      · subst hq
        rw [lookup_cons_eq, lookup_cons_eq]
      · rw [lookup_cons_ne _ _ hq, lookup_cons_ne _ _ hq, ih]

theorem mem_registrySet {name : String} {files : List Path} {r : Registry}
    {k : String} {pr : Profile} (h : (k, pr) ∈ registrySet name files r) :
    ∃ pr', (k, pr') ∈ r := by
  induction r with
  | nil => simp [registrySet] at h
  | cons kp rest ih =>
    obtain ⟨k', pr'⟩ := kp
    rw [registrySet_cons] at h
    rcases List.mem_cons.mp h with h | h
    · by_cases hk : k' = name
      · rw [if_pos hk] at h
        have hkk : k = k' := congrArg Prod.fst h
        exact ⟨pr', by rw [hkk]; exact List.mem_cons_self _ _⟩
      · rw [if_neg hk] at h
        have hkk : k = k' := congrArg Prod.fst h
        exact ⟨pr', by rw [hkk]; exact List.mem_cons_self _ _⟩
    · rcases ih h with ⟨pr'', h2⟩
      exact ⟨pr'', List.mem_cons_of_mem _ h2⟩

theorem lookup_registryRemove_self (name : String) (r : Registry) :
    List.lookup name (registryRemove name r) = none := by
  induction r with
  | nil => simp [registryRemove]
  | cons kp rest ih =>
    obtain ⟨k, pr⟩ := kp
    rw [registryRemove_cons]
    by_cases hk : k = name
    · rw [if_pos hk]; exact ih
    · rw [if_neg hk, lookup_cons_ne _ _ (Ne.symm hk)]; exact ih

theorem lookup_registryRemove_other {name q : String} (r : Registry)
    (h : q ≠ name) :
    List.lookup q (registryRemove name r) = List.lookup q r := by
  induction r with
  | nil => simp [registryRemove]
  | cons kp rest ih =>
    obtain ⟨k, pr⟩ := kp
    rw [registryRemove_cons]
    by_cases hk : k = name
    · subst hk
      rw [if_pos rfl, lookup_cons_ne _ _ h, ih]
    · rw [if_neg hk]
      by_cases hq : q = k
      · subst hq
        rw [lookup_cons_eq, lookup_cons_eq]
      · rw [lookup_cons_ne _ _ hq, lookup_cons_ne _ _ hq, ih]

theorem mem_registryRemove {name : String} {r : Registry} {k : String}
    {pr : Profile} (h : (k, pr) ∈ registryRemove name r) : (k, pr) ∈ r :=
  List.mem_of_mem_filter h

theorem lookup_mem {k : String} {v : Profile} {r : Registry}
    (h : List.lookup k r = some v) : (k, v) ∈ r := by
  induction r with
  | nil => simp [List.lookup] at h
  | cons kp rest ih =>
    obtain ⟨k', v'⟩ := kp
    by_cases hk : k = k'
    · subst hk
      simp [List.lookup] at h
      simp [h]
    · have h' : (k == k') = false := by simp [hk]
      simp [List.lookup, h'] at h
      exact List.mem_cons_of_mem _ (ih h)

theorem mem_unionFiles {r : Registry} {x : Path} :
    x ∈ unionFiles r ↔ ∃ kp, kp ∈ r ∧ x ∈ kp.2.files := by
  simp only [unionFiles, List.mem_dedup, List.mem_flatten, List.mem_map]
  constructor
  · rintro ⟨l, ⟨kp, hkp, rfl⟩, hx⟩
    exact ⟨kp, hkp, hx⟩
  · rintro ⟨kp, hkp, hx⟩
    exact ⟨kp.2.files, ⟨kp, hkp, rfl⟩, hx⟩

theorem files_subset_union {r : Registry} {k : String} {prof : Profile}
    (h : List.lookup k r = some prof) {x : Path} (hx : x ∈ prof.files) :
    x ∈ unionFiles r :=
  mem_unionFiles.mpr ⟨(k, prof), lookup_mem h, hx⟩

/-! ### Lemmas about `make_canon_names` -/

theorem make_canon_names_eval {fs : FS} {p : Path} (n : String)
    (hc : (fs p).isSome = true) :
    make_canon_names fs p n = .ok (p, addExtension p n, addExtension p "org") := by
  simp [make_canon_names, canonicalize, hc]

theorem make_canon_names_ok {fs : FS} {p : Path} {n : String}
    {t : Path × Path × Path} (h : make_canon_names fs p n = .ok t) :
    t = (p, addExtension p n, addExtension p "org") ∧ (fs p).isSome = true := by
  by_cases hc : (fs p).isSome
  · rw [make_canon_names_eval n hc] at h
    injection h with h
    exact ⟨h.symm, hc⟩
  · simp [make_canon_names, canonicalize, hc] at h

/-! ### Lemmas about the `deactivate` loop -/

theorem deactivateFiles_frame (fs : FS) (l : List Path) (x : Path)
    (hx : x ∉ l) : (deactivateFiles fs l).2 x = fs x := by
  induction l generalizing fs with
  | nil => rfl
  | cons g rest ih =>
    have hxg : x ≠ g := fun h => hx (List.mem_cons.mpr (Or.inl h))
    have hxr : x ∉ rest := fun h => hx (List.mem_cons_of_mem g h)
    cases hmk : make_canon_names fs g "org" with
    | error e => simp [deactivateFiles, hmk]
    | ok t =>
      obtain ⟨ht, hc⟩ := make_canon_names_ok hmk
      subst ht
      simp only [deactivateFiles, hmk]
      cases hcp : copy_file fs (addExtension g "org") g with
      | error e => simp
      | ok fs1 =>
        obtain ⟨c, hsrc, rfl⟩ := copy_file_ok hcp
        rw [ih _ hxr, update_other _ _ _ _ hxg]

theorem deactivateFiles_value (fs : FS) (l : List Path) (f : Path)
    (hnd : l.Nodup) (hf : f ∈ l) (horg : addExtension f "org" ∉ l)
    (hok : (deactivateFiles fs l).1 = none) :
    (deactivateFiles fs l).2 f = fs (addExtension f "org") := by
  induction l generalizing fs with
  | nil => simp at hf
  | cons g rest ih =>
    obtain ⟨hgr, hndr⟩ := List.nodup_cons.mp hnd
    cases hmk : make_canon_names fs g "org" with
    | error e => simp [deactivateFiles, hmk] at hok
    | ok t =>
      obtain ⟨ht, hc⟩ := make_canon_names_ok hmk
      subst ht
      simp only [deactivateFiles, hmk] at hok ⊢
      cases hcp : copy_file fs (addExtension g "org") g with
      | error e => simp [hcp] at hok
      | ok fs1 =>
        obtain ⟨c, hsrc, rfl⟩ := copy_file_ok hcp
        simp only [hcp] at hok ⊢
        rcases List.mem_cons.mp hf with rfl | hfr
        · have hne : addExtension f "org" ≠ f :=
            fun h => horg (List.mem_cons.mpr (Or.inl h))
          rw [deactivateFiles_frame _ _ _ hgr, if_neg hne, update_same, hsrc]
        · have hforg : addExtension f "org" ∉ rest :=
            fun h => horg (List.mem_cons_of_mem g h)
          have hforgg : addExtension f "org" ≠ g :=
            fun h => horg (List.mem_cons.mpr (Or.inl h))
          rw [ih _ hndr hfr hforg hok, update_other _ _ _ _ hforgg]

theorem deactivateFiles_sources (fs : FS) (l : List Path)
    (hnd : l.Nodup) (hcond : ∀ g ∈ l, addExtension g "org" ∉ l)
    (hok : (deactivateFiles fs l).1 = none) :
    ∀ g ∈ l, (fs g).isSome = true ∧ (fs (addExtension g "org")).isSome = true := by
  induction l generalizing fs with
  | nil => simp
  | cons g0 rest ih =>
    obtain ⟨hg0r, hndr⟩ := List.nodup_cons.mp hnd
    cases hmk : make_canon_names fs g0 "org" with
    | error e => simp [deactivateFiles, hmk] at hok
    | ok t =>
      obtain ⟨ht, hc⟩ := make_canon_names_ok hmk
      subst ht
      simp only [deactivateFiles, hmk] at hok
      cases hcp : copy_file fs (addExtension g0 "org") g0 with
      | error e => simp [hcp] at hok
      | ok fs1 =>
        obtain ⟨c, hsrc, rfl⟩ := copy_file_ok hcp
        simp only [hcp] at hok
        intro g hg
        rcases List.mem_cons.mp hg with rfl | hgr
        · exact ⟨hc, by simp [hsrc]⟩
        · have hgne : g ≠ g0 := fun h => hg0r (h ▸ hgr)
          have hgor : addExtension g "org" ≠ g0 := fun h =>
            hcond g (List.mem_cons_of_mem _ hgr) (List.mem_cons.mpr (Or.inl h))
          have hcond' : ∀ g' ∈ rest, addExtension g' "org" ∉ rest :=
            fun g' h1 h2 =>
              hcond g' (List.mem_cons_of_mem _ h1) (List.mem_cons_of_mem _ h2)
          have hthis := ih _ hndr hcond' hok g hgr
          rwa [update_other _ _ _ _ hgne, update_other _ _ _ _ hgor] at hthis

theorem deactivateFiles_run (fs : FS) (l : List Path)
    (hnd : l.Nodup) (hcond : ∀ g ∈ l, addExtension g "org" ∉ l)
    (hsrc : ∀ g ∈ l,
      (fs g).isSome = true ∧ (fs (addExtension g "org")).isSome = true) :
    (deactivateFiles fs l).1 = none ∧
    ∀ x, (deactivateFiles fs l).2 x =
      if x ∈ l then fs (addExtension x "org") else fs x := by
  induction l generalizing fs with
  | nil => simp [deactivateFiles]
  | cons g0 rest ih =>
    obtain ⟨hg0r, hndr⟩ := List.nodup_cons.mp hnd
    obtain ⟨hc, hco⟩ := hsrc g0 (List.mem_cons_self _ _)
    obtain ⟨c, hsrc0⟩ := Option.isSome_iff_exists.mp hco
    have hne : addExtension g0 "org" ≠ g0 := fun h =>
      hcond g0 (List.mem_cons_self _ _) (List.mem_cons.mpr (Or.inl h))
    have hcp : copy_file fs (addExtension g0 "org") g0 =
        .ok (update fs g0 (some c)) := by
      simp [copy_file, hsrc0, hne]
    have hcond' : ∀ g' ∈ rest, addExtension g' "org" ∉ rest :=
      fun g' h1 h2 =>
        hcond g' (List.mem_cons_of_mem _ h1) (List.mem_cons_of_mem _ h2)
    have hsrc' : ∀ g ∈ rest, ((update fs g0 (some c)) g).isSome = true ∧
        ((update fs g0 (some c)) (addExtension g "org")).isSome = true := by
      intro g hg
      have hgne : g ≠ g0 := fun h => hg0r (h ▸ hg)
      have hgor : addExtension g "org" ≠ g0 := fun h =>
        hcond g (List.mem_cons_of_mem _ hg) (List.mem_cons.mpr (Or.inl h))
      rw [update_other _ _ _ _ hgne, update_other _ _ _ _ hgor]
      exact hsrc g (List.mem_cons_of_mem _ hg)
    obtain ⟨hok1, hchar⟩ := ih _ hndr hcond' hsrc'
    constructor
    · simp only [deactivateFiles, make_canon_names_eval "org" hc, hcp]
      exact hok1
    · intro x
      simp only [deactivateFiles, make_canon_names_eval "org" hc, hcp]
      rw [hchar x]
      by_cases hxr : x ∈ rest
      · have hxor : addExtension x "org" ≠ g0 := fun h =>
          hcond x (List.mem_cons_of_mem _ hxr) (List.mem_cons.mpr (Or.inl h))
        rw [if_pos hxr, if_pos (List.mem_cons_of_mem _ hxr),
          update_other _ _ _ _ hxor]
      · by_cases hxg : x = g0
        · subst hxg
          rw [if_neg hxr, if_pos (List.mem_cons_self _ _), update_same, hsrc0]
        · have hxl : x ∉ g0 :: rest := by
            intro h
            rcases List.mem_cons.mp h with h | h
            · exact hxg h
            · exact hxr h
          rw [if_neg hxr, if_neg hxl, update_other _ _ _ _ hxg]

/-! ### Lemmas about the `activate` loop -/

theorem activateFiles_frame (name : String) (fs : FS) (l : List Path)
    (x : Path) (hx : x ∉ l) : (activateFiles name fs l).2 x = fs x := by
  induction l generalizing fs with
  | nil => rfl
  | cons g rest ih =>
    have hxg : x ≠ g := fun h => hx (List.mem_cons.mpr (Or.inl h))
    have hxr : x ∉ rest := fun h => hx (List.mem_cons_of_mem g h)
    cases hmk : make_canon_names fs g name with
    | error e => simp [activateFiles, hmk]
    | ok t =>
      obtain ⟨ht, hc⟩ := make_canon_names_ok hmk
      subst ht
      simp only [activateFiles, hmk]
      cases hcp : copy_file fs (addExtension g name) g with
      | error e => simp
      | ok fs1 =>
        obtain ⟨c, hsrc, rfl⟩ := copy_file_ok hcp
        rw [ih _ hxr, update_other _ _ _ _ hxg]

theorem activateFiles_value (name : String) (fs : FS) (l : List Path)
    (f : Path) (hf : f ∈ l) (hv : addExtension f name ∉ l)
    (hok : (activateFiles name fs l).1 = none) :
    (activateFiles name fs l).2 f = fs (addExtension f name) := by
  induction l generalizing fs with
  | nil => simp at hf
  | cons g rest ih =>
    cases hmk : make_canon_names fs g name with
    | error e => simp [activateFiles, hmk] at hok
    | ok t =>
      obtain ⟨ht, hc⟩ := make_canon_names_ok hmk
      subst ht
      simp only [activateFiles, hmk] at hok ⊢
      cases hcp : copy_file fs (addExtension g name) g with
      | error e => simp [hcp] at hok
      | ok fs1 =>
        obtain ⟨c, hsrc, rfl⟩ := copy_file_ok hcp
        simp only [hcp] at hok ⊢
        have hfvr : addExtension f name ∉ rest :=
          fun h => hv (List.mem_cons_of_mem g h)
        have hfvg : addExtension f name ≠ g :=
          fun h => hv (List.mem_cons.mpr (Or.inl h))
        by_cases hfr : f ∈ rest
        · rw [ih _ hfr hfvr hok, update_other _ _ _ _ hfvg]
        · have hfg : f = g := by
            rcases List.mem_cons.mp hf with h | h
            · exact h
            · exact absurd h hfr
          subst hfg
          have hne : addExtension f name ≠ f := hfvg
          rw [activateFiles_frame _ _ _ _ hfr, if_neg hne, update_same, hsrc]

/-! ### Characterizing `add_profile` -/

theorem add_profile_ok {name : String} {f : Path} {s : St}
    (h : (add_profile name f s).1 = none) :
    name ≠ "org" ∧ (s.fs f).isSome = true ∧
      (add_profile name f s).2.registry = registryPush name f s.registry := by
  by_cases hn : name = "org"
  · simp [add_profile, hn] at h
  · simp only [add_profile, if_neg hn] at h ⊢
    cases hmk : make_canon_names s.fs f name with
    | error e => simp [hmk] at h
    | ok t =>
      obtain ⟨ht, hc⟩ := make_canon_names_ok hmk
      subst ht
      simp only [hmk] at h ⊢
      cases h1 : copy_file s.fs f (addExtension f "org") with
      | error e => simp [h1] at h
      | ok fs1 =>
        simp only [h1] at h ⊢
        cases h2 : copy_file fs1 f (addExtension f name) with
        | error e => simp [h2] at h
        | ok fs2 => exact ⟨hn, hc, rfl⟩

theorem add_profile_ok_fs {name : String} {f : Path} {s : St}
    (h : (add_profile name f s).1 = none)
    (hv : addExtension f name ≠ f) (ho : addExtension f "org" ≠ f) :
    ∀ x, (add_profile name f s).2.fs x =
      if x = addExtension f name then s.fs f
      else if x = addExtension f "org" then s.fs f
      else s.fs x := by
  obtain ⟨hn, hc, -⟩ := add_profile_ok h
  obtain ⟨c, hcc⟩ := Option.isSome_iff_exists.mp hc
  have hfo : f ≠ addExtension f "org" := Ne.symm ho
  have hfv : f ≠ addExtension f name := Ne.symm hv
  have h1 : copy_file s.fs f (addExtension f "org") =
      .ok (update s.fs (addExtension f "org") (some c)) := by
    simp [copy_file, hcc, hfo]
  have hfs1 : update s.fs (addExtension f "org") (some c) f = some c := by
    rw [update_other _ _ _ _ hfo, hcc]
  have h2 : copy_file (update s.fs (addExtension f "org") (some c)) f
      (addExtension f name) =
      .ok (update (update s.fs (addExtension f "org") (some c))
        (addExtension f name) (some c)) := by
    simp [copy_file, hfs1, hfv]
  intro x
  simp only [add_profile, if_neg hn, make_canon_names_eval name hc, h1, h2]
  by_cases hx1 : x = addExtension f name
  · rw [if_pos hx1, hx1, update_same, hcc]
  · rw [if_neg hx1, update_other _ _ _ _ hx1]
    by_cases hx2 : x = addExtension f "org"
    · rw [if_pos hx2, hx2, update_same, hcc]
    · rw [if_neg hx2, update_other _ _ _ _ hx2]

theorem add_profile_registry_cases (name : String) (f : Path) (s : St) :
    (add_profile name f s).2.registry = s.registry ∨
    (name ≠ "org" ∧
      (add_profile name f s).2.registry = registryPush name f s.registry) := by
  by_cases hn : name = "org"
  · left; simp [add_profile, hn]
  · simp only [add_profile, if_neg hn]
    cases hmk : make_canon_names s.fs f name with
    | error e => left; rfl
    | ok t =>
      obtain ⟨ht, hc⟩ := make_canon_names_ok hmk
      subst ht
      simp only [hmk]
      cases h1 : copy_file s.fs f (addExtension f "org") with
      | error e => left; simp
      | ok fs1 =>
        simp only [h1]
        cases h2 : copy_file fs1 f (addExtension f name) with
        | error e => left; simp
        | ok fs2 => right; exact ⟨hn, by simp⟩

/-! ### Characterizing `remove_profile` -/

theorem remove_profile_ok {name : String} {f : Path} {s : St}
    {prof : Profile} {i : Nat}
    (hlook : List.lookup name s.registry = some prof)
    (hpos : position f prof.files = some i)
    (h : (remove_profile name f s).1 = none) :
    (s.fs f).isSome = true ∧
    (remove_profile name f s).2.registry =
      (if (prof.files.eraseIdx i).isEmpty then
        registryRemove name (registrySet name (prof.files.eraseIdx i) s.registry)
      else registrySet name (prof.files.eraseIdx i) s.registry) ∧
    (remove_profile name f s).2.fs =
      update (update s.fs (addExtension f name) none)
        (addExtension f "org") none := by
  by_cases hc : (s.fs f).isSome
  · simp only [remove_profile, make_canon_names_eval name hc, hlook, hpos] at h ⊢
    cases hA : remove_file s.fs (addExtension f name) with
    | error e => simp [hA] at h
    | ok fsA =>
      obtain ⟨hvar, rfl⟩ := remove_file_ok hA
      simp only [hA] at h ⊢
      cases hB : remove_file (update s.fs (addExtension f name) none)
          (addExtension f "org") with
      | error e => simp [hB] at h
      | ok fsB =>
        obtain ⟨horg, rfl⟩ := remove_file_ok hB
        simp [hB, hc]
  · simp [remove_profile, make_canon_names, canonicalize, hc] at h

theorem remove_profile_err {name : String} {f : Path} {s : St}
    {prof : Profile} {i : Nat}
    (hc : (s.fs f).isSome = true)
    (hlook : List.lookup name s.registry = some prof)
    (hpos : position f prof.files = some i)
    (h : (remove_profile name f s).1 ≠ none) :
    (remove_profile name f s).2.registry =
      registrySet name (prof.files.eraseIdx i) s.registry := by
  simp only [remove_profile, make_canon_names_eval name hc, hlook, hpos] at h ⊢
  cases hA : remove_file s.fs (addExtension f name) with
  | error e => simp [hA]
  | ok fsA =>
    simp only [hA] at h ⊢
    cases hB : remove_file fsA (addExtension f "org") with
    | error e => simp [hB]
    | ok fsB =>
      exfalso
      apply h
      simp [hB]

theorem remove_profile_registry_keys (name : String) (f : Path) (s : St)
    {k : String} {pr : Profile}
    (h : (k, pr) ∈ (remove_profile name f s).2.registry) :
    ∃ pr', (k, pr') ∈ s.registry := by
  simp only [remove_profile] at h
  cases hmk : make_canon_names s.fs f name with
  | error e =>
    simp only [hmk] at h
    exact ⟨pr, h⟩
  | ok t =>
    obtain ⟨ht, hc⟩ := make_canon_names_ok hmk
    subst ht
    simp only [hmk] at h
    cases hlk : List.lookup name s.registry with
    | none =>
      simp only [hlk] at h
      exact ⟨pr, h⟩
    | some prof =>
      simp only [hlk] at h
      cases hp : position f prof.files with
      | none =>
        simp only [hp] at h
        exact ⟨pr, h⟩
      | some i =>
        simp only [hp] at h
        cases hA : remove_file s.fs (addExtension f name) with
        | error e =>
          simp only [hA] at h
          exact mem_registrySet h
        | ok fsA =>
          simp only [hA] at h
          cases hB : remove_file fsA (addExtension f "org") with
          | error e =>
            simp only [hB] at h
            exact mem_registrySet h
          | ok fsB =>
            simp only [hB] at h
            by_cases he : (prof.files.eraseIdx i).isEmpty
            · rw [if_pos he] at h
              exact mem_registrySet (mem_registryRemove h)
            · rw [if_neg he] at h
              exact mem_registrySet h

/-! ### Concrete states used to instantiate and refute the claims -/

/-- A filesystem holding a single file `a` with content `c`. -/
def fsSimple : FS := fun p => if p = "a" then some "c" else none

/-- Empty registry over `fsSimple`. -/
def stSimple : St := { registry := [], fs := fsSimple }

/-- A filesystem where the managed path `a.p` collides with the variant
path that `add p a` derives for `a`. -/
def fsCollide : FS := fun p =>
  if p = "a" then some "c"
  else if p = "a.p" then some "x"
  else if p = "a.p.p" then some "v"
  else if p = "a.p.org" then some "y"
  else none

/-- Registry where profile `p` already manages `a.p`, over `fsCollide`. -/
def stCollide : St := { registry := [("p", ⟨["a.p"]⟩)], fs := fsCollide }

/-- A filesystem where the managed path `a.org` is the org path of the
managed path `a`. -/
def fsOrgManaged : FS := fun p =>
  if p = "a" then some "x"
  else if p = "a.org" then some "y"
  else if p = "a.org.org" then some "z"
  else none

/-- Registry managing both `a` and `a.org` under one profile. -/
def stOrgManaged : St := { registry := [("p", ⟨["a", "a.org"]⟩)], fs := fsOrgManaged }

/-- A filesystem with `a` and its org snapshot only. -/
def fsPair : FS := fun p =>
  if p = "a" then some "x"
  else if p = "a.org" then some "y"
  else none

/-- Registry managing `a` under profile `p`, over `fsPair` (no variant
snapshot `a.p` on disk, so deleting it fails). -/
def stPair : St := { registry := [("p", ⟨["a"]⟩)], fs := fsPair }

/-- Registry of `stPair`, reused for the `main` runs. -/
def regRm : Registry := [("p", ⟨["a"]⟩)]

/-- A filesystem with complete artifacts for `a` under `p` and for `b`
under `q`. -/
def fsFull : FS := fun p =>
  if p = "a" then some "x"
  else if p = "a.p" then some "u"
  else if p = "a.org" then some "y"
  else if p = "b" then some "m"
  else if p = "b.q" then some "n"
  else if p = "b.org" then some "o"
  else none

/-- Two profiles, each managing one file, over `fsFull`. -/
def stTwo : St := { registry := [("p", ⟨["a"]⟩), ("q", ⟨["b"]⟩)], fs := fsFull }

/-- Profile `p` lists `a` twice, over `fsFull`. -/
def stDup : St := { registry := [("p", ⟨["a", "a"]⟩)], fs := fsFull }

/-- An empty filesystem: every canonicalization fails. -/
def fsNone : FS := fun _ => none

/-- Registry managing `a` over the empty filesystem, so `deactivate`
fails. -/
def stFail : St := { registry := [("p", ⟨["a"]⟩)], fs := fsNone }

/-! ### The claims -/

/-- C1 (amended): after `add(p, f)` then `deactivate` then `activate(p)`,
all succeeding, the live content of `f` equals the content of `f` at the
moment `add` was called — provided the variant path `f.p` and the org path
`f.org` derived for `f` are not themselves managed paths of the registry
after the add. -/
theorem C1_roundtrip_after_add (p : String) (f : Path) (s : St)
    (hv : addExtension f p ∉ unionFiles (add_profile p f s).2.registry)
    (ho : addExtension f "org" ∉ unionFiles (add_profile p f s).2.registry)
    (h1 : (add_profile p f s).1 = none)
    (h2 : (deactivate (add_profile p f s).2).1 = none)
    (h3 : (activate p (deactivate (add_profile p f s).2).2).1 = none) :
    (activate p (deactivate (add_profile p f s).2).2).2.fs f = s.fs f := by
  obtain ⟨hn, hc, hreg⟩ := add_profile_ok h1
  have hlook1 : List.lookup p (add_profile p f s).2.registry =
      some ⟨((List.lookup p s.registry).getD ⟨[]⟩).files ++ [f]⟩ := by
    rw [hreg]; exact lookup_registryPush_self p f s.registry
  have hfU : f ∈ unionFiles (add_profile p f s).2.registry :=
    files_subset_union hlook1 (by simp)
  have hv' : addExtension f p ≠ f := fun h => hv (by rw [h]; exact hfU)
  have ho' : addExtension f "org" ≠ f := fun h => ho (by rw [h]; exact hfU)
  have hchar := add_profile_ok_fs h1 hv' ho'
  -- the deactivate pass
  have hd1 : (deactivateFiles (add_profile p f s).2.fs
      (unionFiles (add_profile p f s).2.registry)).1 = none := h2
  have hW1 : (deactivate (add_profile p f s).2).2.fs f =
      (add_profile p f s).2.fs (addExtension f "org") :=
    deactivateFiles_value _ _ f (List.nodup_dedup _) hfU ho hd1
  have hW2 : (deactivate (add_profile p f s).2).2.fs (addExtension f p) =
      (add_profile p f s).2.fs (addExtension f p) :=
    deactivateFiles_frame _ _ _ hv
  have e2 : (add_profile p f s).2.fs (addExtension f p) = s.fs f := by
    rw [hchar (addExtension f p), if_pos rfl]
  -- the activate pass
  have hlook2 : List.lookup p (deactivate (add_profile p f s).2).2.registry =
      some ⟨((List.lookup p s.registry).getD ⟨[]⟩).files ++ [f]⟩ := hlook1
  have hfmem : f ∈ (⟨((List.lookup p s.registry).getD ⟨[]⟩).files ++ [f]⟩ :
      Profile).files := by simp
  have hvmem : addExtension f p ∉
      (⟨((List.lookup p s.registry).getD ⟨[]⟩).files ++ [f]⟩ : Profile).files :=
    fun hx => hv (files_subset_union hlook1 hx)
  simp only [activate, hlook2] at h3 ⊢
  rw [activateFiles_value p _ _ f hfmem hvmem h3, hW2, e2]

/-- C1 counterexample: in `stCollide` the path `a.p` is already managed, so
`add p a` overwrites its live content and the later `activate p` restores
`a.p` from its own variant before copying it onto `a`; all three steps
succeed, yet `a` ends with content `v`, not its content `c` at add time. -/
theorem C1_counterexample :
    (add_profile "p" "a" stCollide).1 = none ∧
    (deactivate (add_profile "p" "a" stCollide).2).1 = none ∧
    (activate "p" (deactivate (add_profile "p" "a" stCollide).2).2).1 = none ∧
    stCollide.fs "a" = some "c" ∧
    (activate "p" (deactivate (add_profile "p" "a" stCollide).2).2).2.fs "a" =
      some "v" ∧
    (activate "p" (deactivate (add_profile "p" "a" stCollide).2).2).2.fs "a" ≠
      stCollide.fs "a" := by decide

/-- C1 witness: the round trip at a collision-free concrete state. -/
theorem C1_witness :
    (activate "p" (deactivate (add_profile "p" "a" stSimple).2).2).2.fs "a" =
      stSimple.fs "a" :=
  C1_roundtrip_after_add "p" "a" stSimple (by decide) (by decide) (by decide)
    (by decide) (by decide)

/-- C2 (amended): `deactivate` iterates over the deduplicated union of
every path listed in any profile, copying each path's org snapshot onto
the live path; provided no managed path's org path is itself a managed
path, a successful `deactivate` followed by a second one succeeds and
leaves every live file unchanged. -/
theorem C2_deactivate_idempotent (s : St)
    (hcond : ∀ g ∈ unionFiles s.registry,
      addExtension g "org" ∉ unionFiles s.registry)
    (h1 : (deactivate s).1 = none) :
    (deactivate (deactivate s).2).1 = none ∧
    ∀ x, (deactivate (deactivate s).2).2.fs x = (deactivate s).2.fs x := by
  have hnd : (unionFiles s.registry).Nodup := List.nodup_dedup _
  have hd1 : (deactivateFiles s.fs (unionFiles s.registry)).1 = none := h1
  have hsrc := deactivateFiles_sources s.fs _ hnd hcond hd1
  obtain ⟨hok1, hchar1⟩ := deactivateFiles_run s.fs _ hnd hcond hsrc
  have hsrc2 : ∀ g ∈ unionFiles s.registry,
      ((deactivateFiles s.fs (unionFiles s.registry)).2 g).isSome = true ∧
      ((deactivateFiles s.fs (unionFiles s.registry)).2
        (addExtension g "org")).isSome = true := by
    intro g hg
    have h1g := hchar1 g
    have h2g := hchar1 (addExtension g "org")
    rw [if_pos hg] at h1g
    rw [if_neg (hcond g hg)] at h2g
    exact ⟨by rw [h1g]; exact (hsrc g hg).2, by rw [h2g]; exact (hsrc g hg).2⟩
  obtain ⟨hok2, hchar2⟩ := deactivateFiles_run
    (deactivateFiles s.fs (unionFiles s.registry)).2 _ hnd hcond hsrc2
  refine ⟨hok2, ?_⟩
  intro x
  have ha := hchar2 x
  have hb := hchar1 x
  by_cases hx : x ∈ unionFiles s.registry
  · rw [if_pos hx] at ha hb
    have hxo := hchar1 (addExtension x "org")
    rw [if_neg (hcond x hx)] at hxo
    show (deactivateFiles (deactivateFiles s.fs (unionFiles s.registry)).2
      (unionFiles s.registry)).2 x = _
    rw [ha, hxo]
    exact hb.symm
  · rw [if_neg hx] at ha hb
    exact ha

/-- C2 counterexample: with `a` and `a.org` both managed, the first
`deactivate` leaves `a` with content `y` while overwriting `a.org` with
`z`; the second `deactivate` then writes `z` into `a`, so the live content
of the managed path `a` differs between the two runs. -/
theorem C2_counterexample :
    (deactivate stOrgManaged).1 = none ∧
    (deactivate (deactivate stOrgManaged).2).1 = none ∧
    (deactivate stOrgManaged).2.fs "a" = some "y" ∧
    (deactivate (deactivate stOrgManaged).2).2.fs "a" = some "z" ∧
    (deactivate (deactivate stOrgManaged).2).2.fs "a" ≠
      (deactivate stOrgManaged).2.fs "a" := by decide

/-- C2 witness: idempotence at a concrete collision-free state. -/
theorem C2_witness :
    (deactivate (deactivate stPair).2).1 = none ∧
    (deactivate (deactivate stPair).2).2.fs "a" =
      (deactivate stPair).2.fs "a" :=
  ⟨(C2_deactivate_idempotent stPair (by decide) (by decide)).1,
   (C2_deactivate_idempotent stPair (by decide) (by decide)).2 "a"⟩

/-- C3 (amended): when the dispatched command returns an error, `main`
logs that error and exits with code 1 without serializing or writing the
registry store; the in-memory registry mutations (such as a failed
`remove`'s list removal) are discarded, not persisted. -/
theorem C3_error_exits_without_persist (reg : Registry) (fs0 : FS)
    (cmd : Commands) (serializeOk writeOk : Bool) (e : String)
    (h : (runCommand cmd { registry := reg, fs := fs0 }).1 = some e) :
    mainRun (.ok reg) fs0 cmd serializeOk writeOk =
      { exitCode := 1, store := none,
        fs := (runCommand cmd { registry := reg, fs := fs0 }).2.fs,
        loggedErrors := [e] } := by
  rcases hp : runCommand cmd { registry := reg, fs := fs0 } with ⟨e1, s1⟩
  rw [hp] at h
  simp only at h
  subst h
  simp [mainRun, hp]

/-- C3 counterexample: a `remove` whose variant-file deletion fails makes
the command error out with the path already removed from the in-memory
profile list, and `main` then exits with code 1 without writing any store
— the registry with the path removed is not persisted. -/
theorem C3_counterexample :
    (runCommand (.remove "p" "a") { registry := regRm, fs := fsPair }).1 ≠
      none ∧
    List.lookup "p"
      (runCommand (.remove "p" "a")
        { registry := regRm, fs := fsPair }).2.registry = some ⟨[]⟩ ∧
    (mainRun (.ok regRm) fsPair (.remove "p" "a") true true).store = none ∧
    (mainRun (.ok regRm) fsPair (.remove "p" "a") true true).exitCode = 1 := by
  decide

/-- C3 witness: the amended behaviour at the failing `remove` above. -/
theorem C3_witness :
    mainRun (.ok regRm) fsPair (.remove "p" "a") true true =
      { exitCode := 1, store := none,
        fs := (runCommand (.remove "p" "a")
          { registry := regRm, fs := fsPair }).2.fs,
        loggedErrors := ["Failed to remove file a.p"] } :=
  C3_error_exits_without_persist regRm fsPair (.remove "p" "a") true true
    "Failed to remove file a.p" (by decide)

/-- C4 (amended): the process exits with code 0 or 1; exit code 1 always
comes with a logged error message; and the only way an error is logged
while the exit code is still 0 is a failure to write the registry store at
the end of a successful run (serialization succeeded, the write failed,
nothing was persisted). -/
theorem C4_exit_code_policy (loadResult : Except String Registry) (fs0 : FS)
    (cmd : Commands) (serializeOk writeOk : Bool) :
    ((mainRun loadResult fs0 cmd serializeOk writeOk).exitCode = 0 ∨
     (mainRun loadResult fs0 cmd serializeOk writeOk).exitCode = 1) ∧
    ((mainRun loadResult fs0 cmd serializeOk writeOk).exitCode = 1 →
      (mainRun loadResult fs0 cmd serializeOk writeOk).loggedErrors ≠ []) ∧
    ((mainRun loadResult fs0 cmd serializeOk writeOk).exitCode = 0 →
     (mainRun loadResult fs0 cmd serializeOk writeOk).loggedErrors ≠ [] →
      serializeOk = true ∧ writeOk = false ∧
      (mainRun loadResult fs0 cmd serializeOk writeOk).loggedErrors =
        [writeError] ∧
      (mainRun loadResult fs0 cmd serializeOk writeOk).store = none) := by
  cases loadResult with
  | error e => simp [mainRun]
  | ok reg =>
    rcases hp : runCommand cmd { registry := reg, fs := fs0 } with ⟨e1, s1⟩
    cases e1 with
    | some e => simp [mainRun, hp]
    | none => cases serializeOk <;> cases writeOk <;> simp [mainRun, hp]

/-- C4 counterexample: a successful run whose store write fails logs the
write error but the process still exits with code 0, contradicting
"non-zero code on every reported error". -/
theorem C4_counterexample :
    (mainRun (.ok []) fsSimple .deActivate true false).loggedErrors =
      [writeError] ∧
    (mainRun (.ok []) fsSimple .deActivate true false).exitCode = 0 := by
  decide

/-- C4 witness: the amended policy instantiated at the failing write. -/
theorem C4_witness :
    true = true ∧ false = false ∧
    (mainRun (.ok []) fsSimple .deActivate true false).loggedErrors =
      [writeError] ∧
    (mainRun (.ok []) fsSimple .deActivate true false).store = none :=
  (C4_exit_code_policy (.ok []) fsSimple .deActivate true false).2.2
    (by decide) (by decide)

/-- C5: `add_profile` with the reserved name `org` fails with the
reserved-name error for every file argument and every state — including
states where the file does not exist, so no canonicalization, no copy and
no registry mutation is performed: the state is returned untouched. -/
theorem C5_reserved_name (f : Path) (s : St) :
    add_profile "org" f s = (some reservedNameError, s) := by
  simp [add_profile]

/-- C6: a successful `remove(p, f)` deletes exactly the two derived
artifacts (the variant path `f.p` and the org path `f.org`) from disk and
removes the first occurrence of `f` from profile `p`'s file list; if that
list becomes empty, the entry `p` disappears from the registry, otherwise
it holds the shortened list; every other path on disk and every other
profile's registry entry is unchanged. -/
theorem C6_remove_exact_effects (p : String) (f : Path) (s : St)
    (prof : Profile) (l1 l2 : List Path)
    (hlook : List.lookup p s.registry = some prof)
    (hsplit : prof.files = l1 ++ f :: l2)
    (hl1 : f ∉ l1)
    (hok : (remove_profile p f s).1 = none) :
    (remove_profile p f s).2.fs (addExtension f p) = none ∧
    (remove_profile p f s).2.fs (addExtension f "org") = none ∧
    (∀ x, x ≠ addExtension f p → x ≠ addExtension f "org" →
      (remove_profile p f s).2.fs x = s.fs x) ∧
    (∀ q, q ≠ p → List.lookup q (remove_profile p f s).2.registry =
      List.lookup q s.registry) ∧
    (l1 ++ l2 = [] → List.lookup p (remove_profile p f s).2.registry = none) ∧
    (l1 ++ l2 ≠ [] → List.lookup p (remove_profile p f s).2.registry =
      some ⟨l1 ++ l2⟩) := by
  have hpos : position f prof.files = some l1.length := by
    rw [hsplit]; exact position_append l1 l2 f hl1
  obtain ⟨hc, hreg, hfs⟩ := remove_profile_ok hlook hpos hok
  have herase : prof.files.eraseIdx l1.length = l1 ++ l2 := by
    rw [hsplit]; exact eraseIdx_append l1 l2 f
  rw [herase] at hreg
  refine ⟨?_, ?_, ?_, ?_, ?_, ?_⟩
  · rw [hfs]
    by_cases h : addExtension f p = addExtension f "org"
    · rw [h, update_same]
    · rw [update_other _ _ _ _ h, update_same]
  · rw [hfs, update_same]
  · intro x hx1 hx2
    rw [hfs, update_other _ _ _ _ hx2, update_other _ _ _ _ hx1]
  · intro q hq
    rw [hreg]
    by_cases he : (l1 ++ l2).isEmpty
    · rw [if_pos he, lookup_registryRemove_other _ hq,
        lookup_registrySet_other hq]
    · rw [if_neg he, lookup_registrySet_other hq]
  · intro hemp
    rw [hreg, if_pos (by simp [hemp]), lookup_registryRemove_self]
  · intro hne
    have he : ¬((l1 ++ l2).isEmpty = true) := by
      cases hll : l1 ++ l2
      · exact absurd hll hne
      · simp
    rw [hreg, if_neg he, lookup_registrySet_self hlook]

/-- C6 witness: removing `a` from profile `p` in `stTwo` deletes `a.p` and
`a.org`, leaves `b`'s artifacts and profile `q` untouched, and drops the
now-empty profile `p`. -/
theorem C6_witness :
    (remove_profile "p" "a" stTwo).2.fs (addExtension "a" "p") = none ∧
    (remove_profile "p" "a" stTwo).2.fs (addExtension "a" "org") = none ∧
    List.lookup "q" (remove_profile "p" "a" stTwo).2.registry =
      some ⟨["b"]⟩ ∧
    List.lookup "p" (remove_profile "p" "a" stTwo).2.registry = none := by
  obtain ⟨h1, h2, h3, h4, h5, h6⟩ :=
    C6_remove_exact_effects "p" "a" stTwo ⟨["a"]⟩ [] [] (by decide)
      (by decide) (by decide) (by decide)
  exact ⟨h1, h2, (h4 "q" (by decide)).trans (by decide), h5 rfl⟩

/-- C7: in `remove_profile`, the path is removed from the profile's
in-memory list before the variant and org files are deleted; when a
deletion fails, the error is reported while the registry already holds the
shortened list (the mutation is not rolled back, and the entry stays even
if its list became empty). -/
theorem C7_mutation_not_rolled_back (p : String) (f : Path) (s : St)
    (prof : Profile) (l1 l2 : List Path)
    (hc : (s.fs f).isSome = true)
    (hlook : List.lookup p s.registry = some prof)
    (hsplit : prof.files = l1 ++ f :: l2)
    (hl1 : f ∉ l1)
    (hfail : (remove_profile p f s).1 ≠ none) :
    List.lookup p (remove_profile p f s).2.registry = some ⟨l1 ++ l2⟩ := by
  have hpos : position f prof.files = some l1.length := by
    rw [hsplit]; exact position_append l1 l2 f hl1
  have hreg := remove_profile_err hc hlook hpos hfail
  have herase : prof.files.eraseIdx l1.length = l1 ++ l2 := by
    rw [hsplit]; exact eraseIdx_append l1 l2 f
  rw [hreg, herase]
  exact lookup_registrySet_self hlook

/-- C7 witness: over `stPair` the variant file `a.p` does not exist, so
the deletion fails, yet profile `p`'s list is already emptied in the
returned registry. -/
theorem C7_witness :
    List.lookup "p" (remove_profile "p" "a" stPair).2.registry =
      some ⟨[]⟩ :=
  C7_mutation_not_rolled_back "p" "a" stPair ⟨["a"]⟩ [] [] (by decide)
    (by decide) (by decide) (by decide) (by decide)

/-- C8: every command dispatch in `main` factors as `deactivate` chained
with the requested operation through `and_then`; the chaining never
touches the registry during the deactivate, and when the deactivate fails
its error and state are returned directly, so no add, remove or activate
runs without a prior successful deactivate. -/
theorem C8_deactivate_precedes (cmd : Commands) (s : St) :
    runCommand cmd s = andThen deactivate (structuralOp cmd) s ∧
    (deactivate s).2.registry = s.registry ∧
    ∀ e, (deactivate s).1 = some e →
      runCommand cmd s = (some e, (deactivate s).2) := by
  have hfac : runCommand cmd s = andThen deactivate (structuralOp cmd) s := by
    cases cmd with
    | add p f => rfl
    | remove p f => rfl
    | activate p => rfl
    | deActivate =>
      show deactivate s = andThen deactivate (fun s => (none, s)) s
      rcases hd : deactivate s with ⟨e1, s1⟩
      cases e1 <;> simp [andThen, hd]
  refine ⟨hfac, rfl, ?_⟩
  intro e he
  rw [hfac]
  unfold andThen
  rcases hd : deactivate s with ⟨e1, s1⟩
  rw [hd] at he
  simp only at he
  subst he
  simp [hd]

/-- C8 witness: with a managed file missing from disk, the deactivate
fails and the `add` command returns exactly the deactivate error and
state. -/
theorem C8_witness :
    runCommand (.add "q" "b") stFail =
      (some "Failed to canonicalize a", (deactivate stFail).2) :=
  (C8_deactivate_precedes (.add "q" "b") stFail).2.2
    "Failed to canonicalize a" (by decide)

/-- C9 (amended): every profile name occurring as a key in a registry
reachable from the empty registry by `add` and `remove` operations is
different from `org` — `add_profile` rejects that reserved name before
mutating the registry.  (The empty name is not rejected, see the
counterexample.) -/
theorem C9_no_org_key {s : St} (h : Reachable s) :
    ∀ k prof, (k, prof) ∈ s.registry → k ≠ "org" := by
  induction h with
  | init fs => intro k prof hk; simp at hk
  | addStep n f hR ih =>
    intro k prof hk
    rcases add_profile_registry_cases n f _ with hsame | ⟨hn, hpush⟩
    · rw [hsame] at hk; exact ih k prof hk
    · rw [hpush] at hk
      rcases mem_registryPush hk with hkn | ⟨pr', hmem⟩
      · rw [hkn]; exact hn
      · exact ih k pr' hmem
  | removeStep n f hR ih =>
    intro k prof hk
    obtain ⟨pr', hmem⟩ := remove_profile_registry_keys n f _ hk
    exact ih k pr' hmem

/-- C9 counterexample: `add_profile` accepts the empty profile name: from
the empty registry, one successful `add` creates a registry whose key is
the empty string, refuting the claimed non-emptiness of profile names. -/
theorem C9_counterexample :
    (add_profile "" "a" { registry := [], fs := fsSimple }).1 = none ∧
    List.lookup ""
      (add_profile "" "a" { registry := [], fs := fsSimple }).2.registry =
      some ⟨["a"]⟩ := by decide

/-- C9 witness: the invariant applied to one concrete add step. -/
theorem C9_witness : ("p" : String) ≠ "org" :=
  C9_no_org_key
    (Reachable.addStep "p" "a" (Reachable.init fsSimple)) "p" ⟨["a"]⟩
    (by decide)

/-- C10: when profile `p`'s list contains `f` more than once, a successful
`remove(p, f)` removes exactly the first occurrence, leaving the later
duplicate in the list, while both the variant snapshot `f.p` and the org
snapshot `f.org` are deleted from disk — the surviving list entry points
at snapshots that no longer exist. -/
theorem C10_remove_first_occurrence (p : String) (f : Path) (s : St)
    (prof : Profile) (l1 l2 : List Path)
    (hlook : List.lookup p s.registry = some prof)
    (hsplit : prof.files = l1 ++ f :: l2)
    (hl1 : f ∉ l1) (hl2 : f ∈ l2)
    (hok : (remove_profile p f s).1 = none) :
    List.lookup p (remove_profile p f s).2.registry = some ⟨l1 ++ l2⟩ ∧
    f ∈ l1 ++ l2 ∧
    (remove_profile p f s).2.fs (addExtension f p) = none ∧
    (remove_profile p f s).2.fs (addExtension f "org") = none := by
  have hpos : position f prof.files = some l1.length := by
    rw [hsplit]; exact position_append l1 l2 f hl1
  obtain ⟨hc, hreg, hfs⟩ := remove_profile_ok hlook hpos hok
  have herase : prof.files.eraseIdx l1.length = l1 ++ l2 := by
    rw [hsplit]; exact eraseIdx_append l1 l2 f
  rw [herase] at hreg
  have hmem : f ∈ l1 ++ l2 := List.mem_append.mpr (Or.inr hl2)
  have he : ¬((l1 ++ l2).isEmpty = true) := by
    cases hll : l1 ++ l2
    · rw [hll] at hmem; simp at hmem
    · simp
  refine ⟨?_, hmem, ?_, ?_⟩
  · rw [hreg, if_neg he, lookup_registrySet_self hlook]
  · rw [hfs]
    by_cases h : addExtension f p = addExtension f "org"
    · rw [h, update_same]
    · rw [update_other _ _ _ _ h, update_same]
  · rw [hfs, update_same]

/-- C10 witness: profile `p` lists `a` twice in `stDup`; removing once
keeps one occurrence while both snapshots are gone from disk. -/
theorem C10_witness :
    List.lookup "p" (remove_profile "p" "a" stDup).2.registry =
      some ⟨([] : List Path) ++ ["a"]⟩ ∧
    "a" ∈ ([] : List Path) ++ ["a"] ∧
    (remove_profile "p" "a" stDup).2.fs (addExtension "a" "p") = none ∧
    (remove_profile "p" "a" stDup).2.fs (addExtension "a" "org") = none :=
  C10_remove_first_occurrence "p" "a" stDup ⟨["a", "a"]⟩ [] ["a"]
    (by decide) (by decide) (by decide) (by decide) (by decide)

end ProfileRs
